import Mathlib

/-!
Verification of the thor-os NIC ring driver (rtl8139) and process image
loader against its specification.  The definitions below are a shallow
embedding of the code in src/kernel/src/rtl8139.cpp: machine integers are
modelled as Nat with explicit reductions mod 2 ^ w where the source relies
on fixed-width arithmetic, memory is modelled as a function from addresses
to byte values, and the external page mapper / allocators are modelled as
explicit state (a Finset of mapped virtual page bases, and oracles for
allocation and mapping results).
-/

set_option autoImplicit false
set_option maxRecDepth 8192

/-! ## NIC ring driver (rtl8139.cpp lines 49-200) -/

/-- Status bit RX_BAD_ALIGN (0x2) of the frame header. -/
def RX_BAD_ALIGN : ℕ := 2

/-- Status bit RX_CRC_ERR (0x4) of the frame header. -/
def RX_CRC_ERR : ℕ := 4

/-- Status bit RX_TOO_LONG (0x8) of the frame header. -/
def RX_TOO_LONG : ℕ := 8

/-- Status bit RX_RUNT (0x10) of the frame header. -/
def RX_RUNT : ℕ := 16

/-- Status bit RX_BAD_SYMBOL (0x20) of the frame header. -/
def RX_BAD_SYMBOL : ℕ := 32

/-- The error mask tested by the handler at line 83:
RX_BAD_SYMBOL | RX_RUNT | RX_TOO_LONG | RX_CRC_ERR | RX_BAD_ALIGN. -/
def errMask : ℕ := RX_BAD_SYMBOL ||| RX_RUNT ||| RX_TOO_LONG ||| RX_CRC_ERR ||| RX_BAD_ALIGN

/-- Ring modulus 0x3000 used at line 76 (`cur_rx % 0x3000`), also the size
zero-filled at init (line 164) and the size of the 3 mapped pages. -/
def RX_CAPACITY : ℕ := 0x3000

/-- The 4-byte little-endian read at line 79:
`*reinterpret_cast<uint32_t*>(buffer_rx + cur_offset)` on x86, assembled
from the four ring bytes at the offset.  `mem` gives the byte stored at each
ring address (reduced mod 256 as a hardware byte). -/
def readHeader (mem : ℕ → ℕ) (off : ℕ) : ℕ :=
  mem off % 256 + 256 * (mem (off + 1) % 256) + 65536 * (mem (off + 2) % 256) +
    16777216 * (mem (off + 3) % 256)

/-- `packet_status` of the drain iteration with cursor `cur` (lines 76-79):
the header word at the physical read offset `cur % 0x3000`. -/
def packet_status (mem : ℕ → ℕ) (cur : ℕ) : ℕ :=
  readHeader mem (cur % RX_CAPACITY)

/-- Line 80: `packet_length = packet_status >> 16`. -/
def packet_length (mem : ℕ → ℕ) (cur : ℕ) : ℕ :=
  packet_status mem cur / 65536

/-- Line 106: `cur_rx = (cur_rx + packet_length + 4 + 3) & ~3`, on uint64.
Clearing the two low bits of x is x / 4 * 4. -/
def advanceCursor (cur len : ℕ) : ℕ :=
  (cur + len + 4 + 3) % 2 ^ 64 / 4 * 4

/-- Line 92: `packet_only_length = packet_length - 4` on uint32
(wrapping subtraction). -/
def fwdLen (len : ℕ) : ℕ := (len + 2 ^ 32 - 4) % 2 ^ 32

/-- The payload handed to `network::ethernet::decode` in one drain
iteration, or none when the frame is dropped: frames with an error status
bit (line 83) or zero length (line 87) forward nothing; otherwise the
`packet_length - 4` bytes starting 4 bytes after the header are copied into
a fresh buffer and forwarded (lines 90-103). -/
def drainFwd (mem : ℕ → ℕ) (cur : ℕ) : Option (List ℕ) :=
  if packet_status mem cur &&& errMask ≠ 0 then none
  else if packet_length mem cur = 0 then none
  else some (List.ofFn fun i : Fin (fwdLen (packet_length mem cur)) =>
    mem (cur % RX_CAPACITY + 4 + i.val) % 256)

/-- Result of one iteration of the drain loop (lines 75-107): the new value
of `cur_rx`, the payload handed to the decoder (none when the frame is
dropped), and the 16-bit value written to the RX_BUF_PTR register at
line 107 (`cur_rx - 0x10` on uint64, truncated by out_word). -/
structure StepOut where
  cursor : ℕ
  forwarded : Option (List ℕ)
  bufPtr : ℕ
deriving DecidableEq

/-- One iteration of the drain loop of packet_handler (lines 75-107).
All branches advance the cursor with the same formula (line 106) and program
RX_BUF_PTR (line 107). -/
def drainStep (mem : ℕ → ℕ) (cur : ℕ) : StepOut :=
  ⟨advanceCursor cur (packet_length mem cur),
   drainFwd mem cur,
   (advanceCursor cur (packet_length mem cur) + 2 ^ 64 - 16) % 2 ^ 64 % 2 ^ 16⟩

/-- Iterated drain loop: final cursor after the given iterations; each
iteration reads the ring contents current at that iteration (the loop exit
is driven by the CMD register, modelled by the length of the list). -/
def drainRun (cur : ℕ) : List (ℕ → ℕ) → ℕ
  | [] => cur
  | m :: ms => drainRun (drainStep m cur).cursor ms

/-- Cursor value at entry of each drain iteration. -/
def drainCursors (cur : ℕ) : List (ℕ → ℕ) → List ℕ
  | [] => []
  | m :: ms => cur :: drainCursors (drainStep m cur).cursor ms

/-- Physical read offset computed at line 76 in each drain iteration. -/
def drainOffsets (cur : ℕ) : List (ℕ → ℕ) → List ℕ
  | [] => []
  | m :: ms => cur % RX_CAPACITY :: drainOffsets (drainStep m cur).cursor ms

/-- The rtl8139_t descriptor state set up by rtl8139::init_driver relevant
to the receive path: cur_rx and the ring contents. -/
structure NicState where
  cur_rx : ℕ
  ring : ℕ → ℕ

/-- Effect of rtl8139::init_driver (lines 150-164) on the descriptor:
`desc->cur_rx = 0` and `std::fill_n(buffer, 0x3000, 0)` zero-fills the
mapped ring; `old` is the allocator-provided content before the fill. -/
def init_driver (old : ℕ → ℕ) : NicState :=
  ⟨0, fun a => if a < RX_CAPACITY then 0 else old a⟩

/-- A valid 64-byte frame injected at offset 0 of the ring: header status
0x1 (ROK), length 64, written over the given ring contents. -/
def frame64inject (base : ℕ → ℕ) : ℕ → ℕ :=
  fun a => if a = 0 then 1 else if a = 2 then 64 else base a

lemma readHeader_lt (mem : ℕ → ℕ) (off : ℕ) : readHeader mem off < 2 ^ 32 := by
  have h0 : mem off % 256 < 256 := Nat.mod_lt _ (by norm_num)
  have h1 : mem (off + 1) % 256 < 256 := Nat.mod_lt _ (by norm_num)
  have h2 : mem (off + 2) % 256 < 256 := Nat.mod_lt _ (by norm_num)
  have h3 : mem (off + 3) % 256 < 256 := Nat.mod_lt _ (by norm_num)
  unfold readHeader
  omega

/-- C5: for a frame with no error status bit and nonzero header length, the
drain iteration forwards a payload whose length is the uint32 value of
`header.length - 4` (equal to length - 4 whenever length is at least 4), and
whose byte i is the ring byte at offset + 4 + i; in particular its first
byte is the ring byte at offset + 4, where offset is the physical read
offset `cur % 0x3000` of the iteration. -/
theorem c5_valid_frame_forwarding (mem : ℕ → ℕ) (cur : ℕ)
    (hb : packet_status mem cur &&& errMask = 0)
    (hl : packet_length mem cur ≠ 0) :
    ∃ pl : List ℕ,
      (drainStep mem cur).forwarded = some pl ∧
      pl.length = fwdLen (packet_length mem cur) ∧
      (4 ≤ packet_length mem cur → pl.length = packet_length mem cur - 4) ∧
      (∀ i : ℕ, ∀ hi : i < pl.length,
        pl[i] = mem (cur % RX_CAPACITY + 4 + i) % 256) := by
  refine ⟨List.ofFn fun i : Fin (fwdLen (packet_length mem cur)) =>
    mem (cur % RX_CAPACITY + 4 + i.val) % 256, ?_, ?_, ?_, ?_⟩
  · show drainFwd mem cur = _
    rw [drainFwd, if_neg (by simp [hb]), if_neg hl]
  · rw [List.length_ofFn]
  · intro h4
    have hlt : packet_status mem cur < 2 ^ 32 := readHeader_lt mem _
    have hlen : packet_length mem cur < 65536 := by
      unfold packet_length at *
      omega
    rw [List.length_ofFn]
    unfold fwdLen
    omega
  · intro i hi
    rw [List.length_ofFn] at hi
    rw [List.getElem_ofFn]

/-- C5 witness: a concrete valid frame (status 0x1, length 64) at cursor 0;
the theorem applies and its hypotheses hold. -/
def c5mem : ℕ → ℕ :=
  fun a => if a = 0 then 1 else if a = 2 then 64 else if a = 4 then 9 else 0

theorem c5_valid_frame_forwarding_witness :
    packet_status c5mem 0 &&& errMask = 0 ∧
    packet_length c5mem 0 ≠ 0 ∧
    ∃ pl : List ℕ,
      (drainStep c5mem 0).forwarded = some pl ∧
      pl.length = fwdLen (packet_length c5mem 0) ∧
      (4 ≤ packet_length c5mem 0 → pl.length = packet_length c5mem 0 - 4) ∧
      (∀ i : ℕ, ∀ hi : i < pl.length,
        pl[i] = c5mem (0 % RX_CAPACITY + 4 + i) % 256) :=
  ⟨by decide, by decide, c5_valid_frame_forwarding c5mem 0 (by decide) (by decide)⟩

/-- C6: a frame whose header has an error status bit set, or whose header
length is 0, forwards nothing to the decoder, and the cursor is advanced
with the same formula used for valid frames, namely
`(cur + length + 4 + 3) & ~3` (on uint64), the unique advance expression of
the loop. -/
theorem c6_error_frame_drop (mem : ℕ → ℕ) (cur : ℕ)
    (h : packet_status mem cur &&& errMask ≠ 0 ∨ packet_length mem cur = 0) :
    (drainStep mem cur).forwarded = none ∧
    (drainStep mem cur).cursor = advanceCursor cur (packet_length mem cur) ∧
    (drainStep mem cur).cursor =
      (cur + packet_length mem cur + 4 + 3) % 2 ^ 64 / 4 * 4 := by
  refine ⟨?_, rfl, rfl⟩
  show drainFwd mem cur = none
  rcases h with h | h
  · rw [drainFwd, if_pos h]
  · by_cases hb : packet_status mem cur &&& errMask ≠ 0
    · rw [drainFwd, if_pos hb]
    · rw [drainFwd, if_neg hb, if_pos h]

/-- C6 witness: a concrete frame with the RX_BAD_ALIGN error bit set. -/
def c6mem : ℕ → ℕ :=
  fun a => if a = 0 then 2 else if a = 2 then 64 else 0

theorem c6_error_frame_drop_witness :
    packet_status c6mem 0 &&& errMask ≠ 0 ∧
    (drainStep c6mem 0).forwarded = none ∧
    (drainStep c6mem 0).cursor = advanceCursor 0 (packet_length c6mem 0) :=
  ⟨by decide, (c6_error_frame_drop c6mem 0 (Or.inl (by decide))).1,
    (c6_error_frame_drop c6mem 0 (Or.inl (by decide))).2.1⟩

lemma advanceCursor_mod_four (cur len : ℕ) : advanceCursor cur len % 4 = 0 := by
  simp [advanceCursor, Nat.mul_mod_left]

lemma drainRun_mod_four (ms : List (ℕ → ℕ)) :
    ∀ cur : ℕ, cur % 4 = 0 → drainRun cur ms % 4 = 0 := by
  induction ms with
  | nil => intro cur h; simpa [drainRun] using h
  | cons m ms ih =>
    intro cur h
    have : (drainStep m cur).cursor % 4 = 0 := advanceCursor_mod_four cur _
    simpa [drainRun] using ih _ this

lemma drainOffsets_eq (ms : List (ℕ → ℕ)) :
    ∀ cur : ℕ,
      drainOffsets cur ms = (drainCursors cur ms).map (fun c => c % RX_CAPACITY) := by
  induction ms with
  | nil => intro cur; simp [drainOffsets, drainCursors]
  | cons m ms ih => intro cur; simp [drainOffsets, drainCursors, ih]

/-- C7: starting from cursor 0, after any number of drain iterations over
any ring contents (hence any sequence of frame lengths), the cursor is a
multiple of 4, and the physical read offset used in every iteration is the
cursor of that iteration reduced mod 0x3000, never the raw cursor. -/
theorem c7_cursor_invariant (ms : List (ℕ → ℕ)) :
    drainRun 0 ms % 4 = 0 ∧
    drainOffsets 0 ms = (drainCursors 0 ms).map (fun c => c % RX_CAPACITY) :=
  ⟨drainRun_mod_four ms 0 rfl, drainOffsets_eq ms 0⟩

/-- C8: after init_driver, cur_rx is 0, the ring capacity is 0x3000, and the
mapped ring is zero-filled over its 0x3000 bytes; processing one injected
valid 64-byte frame advances the cursor to (0 + 64 + 4 + 3) & ~3 = 68 and
programs the RX_BUF_PTR register to 68 - 16 = 52. -/
theorem c8_init_and_first_frame (old : ℕ → ℕ) :
    (init_driver old).cur_rx = 0 ∧
    RX_CAPACITY = 0x3000 ∧
    (∀ a : ℕ, (init_driver old).ring a = if a < RX_CAPACITY then 0 else old a) ∧
    (drainStep (frame64inject (init_driver old).ring) 0).cursor = 68 ∧
    (drainStep (frame64inject (init_driver old).ring) 0).bufPtr = 52 := by
  have hlen : packet_length (frame64inject (init_driver old).ring) 0 = 64 := by
    unfold packet_length packet_status readHeader frame64inject init_driver RX_CAPACITY
    norm_num
  refine ⟨rfl, rfl, fun a => rfl, ?_, ?_⟩
  · show advanceCursor 0 (packet_length (frame64inject (init_driver old).ring) 0) = 68
    rw [hlen]
    unfold advanceCursor
    norm_num
  · show (advanceCursor 0 (packet_length (frame64inject (init_driver old).ring) 0) +
      2 ^ 64 - 16) % 2 ^ 64 % 2 ^ 16 = 52
    rw [hlen]
    unfold advanceCursor
    norm_num

/-! ## Process image loader (rtl8139.cpp lines 926-1175) -/

/-- Page size of the paging module (0x1000 bytes; the spec describes
fixed-size pages and a 3-page = 12 KiB ring, hence 4096). -/
def PAGE_SIZE : ℕ := 4096

/-- Modelled from the spec: the external helper `paging::page_align`
(page_align_down in section 6 of the spec) rounds an address down to its
page base; the paging module itself is not part of the sources. -/
def page_align (a : ℕ) : ℕ := a / PAGE_SIZE * PAGE_SIZE

/-- The fields of elf::program_header that allocate_segments,
release_segments and the copy step read (the remaining fields of the real
struct are unused by this code). -/
structure program_header where
  p_type : ℕ
  p_vaddr : ℕ
  p_memsz : ℕ
  p_offset : ℕ
  p_filesize : ℕ
deriving DecidableEq

/-- Line 959 / 1071: `first_page = page_align(p_vaddr)`. -/
def segFirstPage (ph : program_header) : ℕ := page_align ph.p_vaddr

/-- Lines 960-961 / 1072-1073:
`bytes = left_padding + PAGE_SIZE + p_memsz` with
`left_padding = p_vaddr - first_page`. -/
def segBytes (ph : program_header) : ℕ :=
  (ph.p_vaddr - segFirstPage ph) + PAGE_SIZE + ph.p_memsz

/-- Line 962 / 1074: `pages = bytes / PAGE_SIZE + 1`. -/
def segPages (ph : program_header) : ℕ := segBytes ph / PAGE_SIZE + 1

/-- The virtual page bases `first_page + i * PAGE_SIZE` for i < n, the
range scanned at lines 965-970 and mapped / unmapped as a block. -/
def pageRange (fp n : ℕ) : Finset ℕ :=
  (Finset.range n).image fun i => fp + i * PAGE_SIZE

/-- Lines 965-970: the conflict scan; true when some page of the range is
already present in the page tables (modelled as the Finset `mapped`). -/
def conflictB (mapped : Finset ℕ) (fp n : ℕ) : Bool :=
  (List.range n).any fun i => decide (fp + i * PAGE_SIZE ∈ mapped)

/-- Results of the external allocator and mapper for each program-header
index p: `allocRes p` is what `k_malloc` returns for segment p (none =
allocation failure), `mapRes p` is whether `paging::map_pages` succeeds for
segment p.  Each segment performs at most one of each call. -/
structure LoadEnv where
  allocRes : ℕ → Option ℕ
  mapRes : ℕ → Bool

/-- Outcome of the loop body of allocate_segments for one program header
(lines 954-1007): skip (not loadable), abort on conflict / allocation
failure / mapping failure, or success carrying the recorded handle. -/
inductive SegStep where
  | skip
  | conflictFail
  | allocFail
  | mapFail (memory : ℕ)
  | ok (memory : ℕ)
deriving DecidableEq

/-- The loop body of allocate_segments for program header `ph` at index
`p` with current page tables `mapped` (lines 954-1007): non-loadable
segments are skipped; otherwise the conflict scan, then `k_malloc`, then
`map_pages` decide the outcome. -/
def segStep (env : LoadEnv) (p : ℕ) (mapped : Finset ℕ) (ph : program_header) : SegStep :=
  if ph.p_type = 1 then
    if conflictB mapped (segFirstPage ph) (segPages ph) then .conflictFail
    else
      match env.allocRes p with
      | none => .allocFail
      | some memory => if env.mapRes p then .ok memory else .mapFail memory
  else .skip

/-- Result of allocate_segments: the `failed` flag it returns, the final
page tables, the prefix of handle-array slots the loop wrote (one per
iteration entered: each iteration first stores nullptr, a successful
`k_malloc` overwrites it with the handle at line 987), and the list of
(index, first_page, pages) ranges it successfully mapped at line 996. -/
structure AllocOut where
  failed : Bool
  mapped : Finset ℕ
  slots : List (Option ℕ)
  mappedRanges : List (ℕ × ℕ × ℕ)
deriving DecidableEq

/-- allocate_segments (lines 946-1011), iterating the loop body over the
program headers starting at index `p`.  A failing iteration sets
`failed = true` and breaks out of the loop, leaving the remaining slots
unwritten. -/
def allocSegs (env : LoadEnv) (p : ℕ) (mapped : Finset ℕ) :
    List program_header → AllocOut
  | [] => ⟨false, mapped, [], []⟩
  | ph :: rest =>
    match segStep env p mapped ph with
    | .skip =>
      ⟨(allocSegs env (p + 1) mapped rest).failed,
       (allocSegs env (p + 1) mapped rest).mapped,
       none :: (allocSegs env (p + 1) mapped rest).slots,
       (allocSegs env (p + 1) mapped rest).mappedRanges⟩
    | .conflictFail => ⟨true, mapped, [none], []⟩
    | .allocFail => ⟨true, mapped, [none], []⟩
    | .mapFail memory => ⟨true, mapped, [some memory], []⟩
    | .ok memory =>
      ⟨(allocSegs env (p + 1) (mapped ∪ pageRange (segFirstPage ph) (segPages ph)) rest).failed,
       (allocSegs env (p + 1) (mapped ∪ pageRange (segFirstPage ph) (segPages ph)) rest).mapped,
       some memory ::
         (allocSegs env (p + 1) (mapped ∪ pageRange (segFirstPage ph) (segPages ph)) rest).slots,
       (p, segFirstPage ph, segPages ph) ::
         (allocSegs env (p + 1) (mapped ∪ pageRange (segFirstPage ph) (segPages ph)) rest).mappedRanges⟩

/-- The handle array after allocate_segments ran over an array whose
initial contents were `init` (the `std::unique_heap_array<void*>` of
exec_command): the written prefix followed by the untouched remainder. -/
def finalArray (init : List (Option ℕ)) (r : AllocOut) : List (Option ℕ) :=
  r.slots ++ init.drop r.slots.length

/-- Observable actions of release_segments: `k_free` of a handle, and
`paging::unmap_pages(first_page, pages)`. -/
inductive REvent where
  | free (h : ℕ)
  | unmap (firstPage pages : ℕ)
deriving DecidableEq

/-- release_segments (lines 1058-1081): for every index with a non-null
handle, `k_free` the handle (line 1068) and then unmap the page range
recomputed from the header (lines 1070-1076); null slots are skipped.  The
routine never writes the handle array, so its behaviour is a pure function
of the headers and the array, returned here as the event list in program
order. -/
def releaseSegments : List program_header → List (Option ℕ) → List REvent
  | ph :: rest, some h :: arest =>
    .free h :: .unmap (segFirstPage ph) (segPages ph) :: releaseSegments rest arest
  | _ :: rest, none :: arest => releaseSegments rest arest
  | _, _ => []

/-- The handles freed by a release event list. -/
def freesOf (es : List REvent) : List ℕ :=
  es.filterMap fun e => match e with | .free h => some h | _ => none

/-- Lines 991-992 and 1004: `aligned_memory` (the block rounded up to a
page boundary unless already aligned) plus the left padding gives
`memory_start`, the destination of the copy. -/
def memory_start (memory : ℕ) (ph : program_header) : ℕ :=
  (if memory % PAGE_SIZE = 0 then memory else (memory / PAGE_SIZE + 1) * PAGE_SIZE) +
    (ph.p_vaddr - segFirstPage ph)

/-- Step 5 of allocate_segments (line 1006):
`std::copy_n(memory_start, buffer + p_offset, p_memsz)` — this repo's
copy_n takes destination first — overwrites the `p_memsz` bytes starting at
memory_start with the image bytes starting at `p_offset`; `ram` is the
destination memory before the copy. -/
def segmentCopy (image ram : ℕ → ℕ) (ph : program_header) (memory : ℕ) : ℕ → ℕ :=
  fun a =>
    if memory_start memory ph ≤ a ∧ a < memory_start memory ph + ph.p_memsz
    then image (ph.p_offset + (a - memory_start memory ph))
    else ram a

/-- read_elf_file (lines 926-944): empty content or content rejected by the
validity check yields none (with an operator-facing message); otherwise the
content is returned.  `isValidElf` abstracts `elf::is_valid`, whose
internals live outside these sources. -/
def read_elf_file (isValidElf : List ℕ → Bool) (content : List ℕ) : Option (List ℕ) :=
  if content.isEmpty then none
  else if isValidElf content then some content
  else none

/-- The loading part of exec_command (lines 1096-1107): read and validate
the file, and only on success run allocate_segments over the parsed program
headers (`parsePhdrs` abstracts the header-table access).  Returns the page
tables after the call, the slots written by allocate_segments, and whether
the command returned early with an error message. -/
def exec_load (isValidElf : List ℕ → Bool) (parsePhdrs : List ℕ → List program_header)
    (env : LoadEnv) (mapped : Finset ℕ) (content : List ℕ) :
    Finset ℕ × List (Option ℕ) × Bool :=
  match read_elf_file isValidElf content with
  | none => (mapped, [], true)
  | some c =>
    let r := allocSegs env 0 mapped (parsePhdrs c)
    (r.mapped, r.slots, false)

lemma allocSegs_slots_length (env : LoadEnv) :
    ∀ (l : List program_header) (p : ℕ) (m : Finset ℕ),
      (allocSegs env p m l).slots.length ≤ l.length := by
  intro l
  induction l with
  | nil => intro p m; simp [allocSegs]
  | cons ph rest ih =>
    intro p m
    cases hs : segStep env p m ph <;>
      simp [allocSegs, hs, List.length_cons] <;>
      exact ih _ _

lemma allocSegs_append_of_failed (env : LoadEnv) :
    ∀ (l1 : List program_header) (p : ℕ) (m : Finset ℕ),
      (allocSegs env p m l1).failed = true →
      ∀ l2, allocSegs env p m (l1 ++ l2) = allocSegs env p m l1 := by
  intro l1
  induction l1 with
  | nil => intro p m h l2; simp [allocSegs] at h
  | cons ph rest ih =>
    intro p m h l2
    cases hs : segStep env p m ph <;>
      simp only [List.cons_append, allocSegs, hs, List.append_eq] at h ⊢ <;>
      try rfl
    · rw [ih _ _ h l2]
    · rw [ih _ _ h l2]

lemma release_order :
    ∀ (phdrs : List program_header) (arr : List (Option ℕ)) (j : ℕ)
      (ph : program_header) (hd : ℕ),
      phdrs[j]? = some ph → arr[j]? = some (some hd) →
      ∃ k, (releaseSegments phdrs arr)[k]? = some (REvent.free hd) ∧
        (releaseSegments phdrs arr)[k + 1]? =
          some (REvent.unmap (segFirstPage ph) (segPages ph)) := by
  intro phdrs
  induction phdrs with
  | nil => intro arr j ph hd h1 h2; simp at h1
  | cons ph0 rest ih =>
    intro arr j ph hd h1 h2
    cases arr with
    | nil => simp at h2
    | cons a arest =>
      cases j with
      | zero =>
        simp only [List.getElem?_cons_zero, Option.some.injEq] at h1 h2
        subst h1
        subst h2
        exact ⟨0, by simp [releaseSegments], by simp [releaseSegments]⟩
      | succ j =>
        simp only [List.getElem?_cons_succ] at h1 h2
        cases a with
        | none =>
          obtain ⟨k, hk1, hk2⟩ := ih arest j ph hd h1 h2
          exact ⟨k, hk1, hk2⟩
        | some b =>
          obtain ⟨k, hk1, hk2⟩ := ih arest j ph hd h1 h2
          refine ⟨k + 2, ?_, ?_⟩
          · simpa [releaseSegments] using hk1
          · simpa [releaseSegments] using hk2

lemma freesOf_release :
    ∀ (phdrs : List program_header) (arr : List (Option ℕ)),
      arr.length = phdrs.length →
      freesOf (releaseSegments phdrs arr) = arr.reduceOption := by
  intro phdrs
  induction phdrs with
  | nil =>
    intro arr h
    rw [List.length_nil] at h
    rw [List.eq_nil_of_length_eq_zero h]
    rfl
  | cons ph rest ih =>
    intro arr h
    cases arr with
    | nil => simp at h
    | cons a arest =>
      have hlen : arest.length = rest.length := by
        simpa using h
      cases a with
      | none =>
        simpa [releaseSegments, List.reduceOption_cons_of_none] using ih arest hlen
      | some b =>
        simp only [releaseSegments, freesOf, List.filterMap_cons,
          List.reduceOption_cons_of_some]
        simpa [freesOf] using ih arest hlen

lemma reduceOption_eq_nil_of_all_none :
    ∀ l : List (Option ℕ), (l.all fun a => a.isNone) = true → l.reduceOption = [] := by
  intro l
  induction l with
  | nil => intro _; rfl
  | cons a rest ih =>
    intro h
    cases a with
    | none =>
      simp only [List.all_cons, Option.isNone_none, Bool.true_and] at h
      simpa [List.reduceOption_cons_of_none] using ih h
    | some b => simp at h

lemma mappedRanges_ge (env : LoadEnv) :
    ∀ (l : List program_header) (p : ℕ) (m : Finset ℕ) (t : ℕ × ℕ × ℕ),
      t ∈ (allocSegs env p m l).mappedRanges → p ≤ t.1 := by
  intro l
  induction l with
  | nil => intro p m t ht; simp [allocSegs] at ht
  | cons ph rest ih =>
    intro p m t ht
    cases hs : segStep env p m ph <;> simp only [allocSegs, hs] at ht
    · exact Nat.le_of_succ_le (ih (p + 1) m t ht)
    · simp at ht
    · simp at ht
    · simp at ht
    · simp only [List.mem_cons] at ht
      rcases ht with ht | ht
      · subst ht; exact Nat.le_refl _
      · exact Nat.le_of_succ_le (ih (p + 1) _ t ht)

lemma slot_none_no_range (env : LoadEnv) :
    ∀ (l : List program_header) (p : ℕ) (m : Finset ℕ) (j : ℕ) (fp n : ℕ),
      (allocSegs env p m l).slots[j]? = some none →
      (p + j, fp, n) ∉ (allocSegs env p m l).mappedRanges := by
  intro l
  induction l with
  | nil => intro p m j fp n hj; simp [allocSegs] at hj
  | cons ph rest ih =>
    intro p m j fp n hj
    cases hs : segStep env p m ph <;> simp only [allocSegs, hs] at hj ⊢
    · -- skip: ranges come from index p+1 onwards
      cases j with
      | zero =>
        intro hmem
        have := mappedRanges_ge env rest (p + 1) m _ hmem
        omega
      | succ j =>
        simp only [List.getElem?_cons_succ] at hj
        have := ih (p + 1) m j fp n hj
        intro hmem
        exact this (by simpa [Nat.add_comm, Nat.add_assoc, Nat.add_left_comm] using hmem)
    · simp
    · simp
    · simp
    · -- ok: slot 0 holds the handle, later slots via ih
      cases j with
      | zero => simp at hj
      | succ j =>
        simp only [List.getElem?_cons_succ] at hj
        have hih := ih (p + 1) _ j fp n hj
        simp only [List.mem_cons]
        rintro (he | hmem)
        · have : p + (j + 1) = p := congrArg Prod.fst he
          omega
        · exact hih (by simpa [Nat.add_comm, Nat.add_assoc, Nat.add_left_comm] using hmem)

/-- C2: when allocate_segments fails (page conflict, allocation failure or
mapping failure), the load aborts: appending further program headers after
the failing prefix does not change the result (no further segment is
processed), and release_segments over the resulting handle array frees
every handle the run recorded and unmaps the page range of its segment, so
no recorded allocation is left unreleased. -/
theorem c2_abort_and_cleanup (env : LoadEnv) (m : Finset ℕ) (phdrs : List program_header)
    (hfail : (allocSegs env 0 m phdrs).failed = true) :
    (∀ l2, allocSegs env 0 m (phdrs ++ l2) = allocSegs env 0 m phdrs) ∧
    (∀ (init : List (Option ℕ)) (j : ℕ) (ph : program_header) (h : ℕ),
      phdrs[j]? = some ph →
      (allocSegs env 0 m phdrs).slots[j]? = some (some h) →
      REvent.free h ∈ releaseSegments phdrs (finalArray init (allocSegs env 0 m phdrs)) ∧
      REvent.unmap (segFirstPage ph) (segPages ph) ∈
        releaseSegments phdrs (finalArray init (allocSegs env 0 m phdrs))) ∧
    (∀ (init : List (Option ℕ)) (h : ℕ),
      some h ∈ (allocSegs env 0 m phdrs).slots →
      REvent.free h ∈ releaseSegments phdrs (finalArray init (allocSegs env 0 m phdrs))) := by
  have hmain : ∀ (init : List (Option ℕ)) (j : ℕ) (ph : program_header) (h : ℕ),
      phdrs[j]? = some ph →
      (allocSegs env 0 m phdrs).slots[j]? = some (some h) →
      REvent.free h ∈ releaseSegments phdrs (finalArray init (allocSegs env 0 m phdrs)) ∧
      REvent.unmap (segFirstPage ph) (segPages ph) ∈
        releaseSegments phdrs (finalArray init (allocSegs env 0 m phdrs)) := by
    intro init j ph h h1 h2
    have hj : j < (allocSegs env 0 m phdrs).slots.length :=
      (List.getElem?_eq_some_iff.mp h2).1
    have h2' : (finalArray init (allocSegs env 0 m phdrs))[j]? = some (some h) := by
      rw [finalArray, List.getElem?_append_left hj]
      exact h2
    obtain ⟨k, hk1, hk2⟩ :=
      release_order phdrs (finalArray init (allocSegs env 0 m phdrs)) j ph h h1 h2'
    exact ⟨List.mem_iff_getElem?.mpr ⟨k, hk1⟩, List.mem_iff_getElem?.mpr ⟨k + 1, hk2⟩⟩
  refine ⟨fun l2 => allocSegs_append_of_failed env phdrs 0 m hfail l2, hmain, ?_⟩
  intro init h hmem
  obtain ⟨j, hj⟩ := List.mem_iff_getElem?.mp hmem
  have hjlt : j < (allocSegs env 0 m phdrs).slots.length :=
    (List.getElem?_eq_some_iff.mp hj).1
  have hjp : j < phdrs.length := Nat.lt_of_lt_of_le hjlt (allocSegs_slots_length env phdrs 0 m)
  exact (hmain init j phdrs[j] h (List.getElem?_eq_getElem hjp) hj).1

/-- C2 witness: two loadable segments; the pages of the second are
pre-mapped, so the load fails, and cleanup frees the first segment's
handle and unmaps its range. -/
def c2ph1 : program_header := ⟨1, 4194304, 16, 0, 16⟩

def c2ph2 : program_header := ⟨1, 6291456, 16, 0, 16⟩

def c2env : LoadEnv := ⟨fun p => if p = 0 then some 8192 else none, fun _ => true⟩

def c2m : Finset ℕ := {6291456}

theorem c2_abort_and_cleanup_witness :
    (allocSegs c2env 0 c2m [c2ph1, c2ph2]).failed = true ∧
    REvent.free 8192 ∈
      releaseSegments [c2ph1, c2ph2]
        (finalArray [none, none] (allocSegs c2env 0 c2m [c2ph1, c2ph2])) ∧
    REvent.unmap (segFirstPage c2ph1) (segPages c2ph1) ∈
      releaseSegments [c2ph1, c2ph2]
        (finalArray [none, none] (allocSegs c2env 0 c2m [c2ph1, c2ph2])) :=
  ⟨by decide,
   ((c2_abort_and_cleanup c2env c2m [c2ph1, c2ph2] (by decide)).2.1
      [none, none] 0 c2ph1 8192 (by decide) (by decide)).1,
   ((c2_abort_and_cleanup c2env c2m [c2ph1, c2ph2] (by decide)).2.1
      [none, none] 0 c2ph1 8192 (by decide) (by decide)).2⟩

/-- C3 counterexample: release_segments never writes the handle array (the
source reads `allocated_segments[p]` but never assigns it), so a second
invocation of the cleanup receives the same records as the first and is the
same pure function application.  For a record holding handle 8192 that was
already cleaned once, the second invocation still performs a free of 8192
and an unmap, refuting the claim that it performs no free and no unmap. -/
def c3hdr : program_header := ⟨1, 16384, 1, 0, 1⟩

theorem c3_second_cleanup_frees_again :
    releaseSegments [c3hdr] [some 8192] =
      [REvent.free 8192, REvent.unmap 16384 2] ∧
    REvent.free 8192 ∈ releaseSegments [c3hdr] [some 8192] := by
  constructor <;> decide

/-- C3 amended: cleanup performs no free and no unmap exactly when every
handle slot it visits is empty; since cleanup never writes the slots, an
already-empty record is stable and contributes nothing, but cleanup does
not empty the slots it frees, so a second call on records whose handles
were non-empty repeats the same frees and unmaps instead of doing
nothing. -/
theorem c3_cleanup_noop_iff_all_empty (phdrs : List program_header)
    (arr : List (Option ℕ)) :
    releaseSegments phdrs arr = [] ↔
      ((phdrs.zip arr).all fun pr => pr.2.isNone) = true := by
  induction phdrs generalizing arr with
  | nil => simp [releaseSegments]
  | cons ph rest ih =>
    cases arr with
    | nil => simp [releaseSegments]
    | cons a arest =>
      cases a with
      | none => simpa [releaseSegments] using ih arest
      | some b => simp [releaseSegments]

theorem c3_cleanup_noop_iff_all_empty_witness :
    releaseSegments [c3hdr] [none] = [] :=
  (c3_cleanup_noop_iff_all_empty [c3hdr] [none]).mpr (by decide)

/-- C4 counterexample: for a segment whose record holds handle 12345,
release_segments emits the free of the block strictly before the unmap of
the page range (the source calls `k_free` at line 1068 and
`unmap_pages` only at line 1076), refuting the claim that the block is
never freed strictly before the unmap. -/
def c4hdr : program_header := ⟨1, 20480, 1, 0, 1⟩

theorem c4_free_precedes_unmap_cex :
    releaseSegments [c4hdr] [some 12345] =
      [REvent.free 12345, REvent.unmap 20480 2] ∧
    (releaseSegments [c4hdr] [some 12345])[0]? = some (REvent.free 12345) ∧
    (releaseSegments [c4hdr] [some 12345])[1]? = some (REvent.unmap 20480 2) := by
  refine ⟨by decide, by decide, by decide⟩

/-- C4 amended: during release, every segment holding a non-empty handle
has its block freed first and its page range unmapped immediately after
(the free strictly precedes the unmap in the event order), and a segment
whose slot ends empty was never mapped by the materialization loop, so
cleanup touches only segments with a recorded handle. -/
theorem c4_release_order_and_handles :
    (∀ (phdrs : List program_header) (arr : List (Option ℕ)) (j : ℕ)
       (ph : program_header) (h : ℕ),
      phdrs[j]? = some ph → arr[j]? = some (some h) →
      ∃ k, (releaseSegments phdrs arr)[k]? = some (REvent.free h) ∧
        (releaseSegments phdrs arr)[k + 1]? =
          some (REvent.unmap (segFirstPage ph) (segPages ph))) ∧
    (∀ (env : LoadEnv) (p : ℕ) (m : Finset ℕ) (phdrs : List program_header)
       (j fp n : ℕ),
      (allocSegs env p m phdrs).slots[j]? = some none →
      (p + j, fp, n) ∉ (allocSegs env p m phdrs).mappedRanges) :=
  ⟨release_order, fun env p m phdrs j fp n hj => slot_none_no_range env phdrs p m j fp n hj⟩

def c4env : LoadEnv := ⟨fun _ => none, fun _ => true⟩

theorem c4_release_order_and_handles_witness :
    (∃ k, (releaseSegments [c4hdr] [some 777])[k]? = some (REvent.free 777) ∧
      (releaseSegments [c4hdr] [some 777])[k + 1]? =
        some (REvent.unmap (segFirstPage c4hdr) (segPages c4hdr))) ∧
    (0 + 0, 20480, 2) ∉ (allocSegs c4env 0 ∅ [c4hdr]).mappedRanges :=
  ⟨c4_release_order_and_handles.1 [c4hdr] [some 777] 0 c4hdr 777 (by decide) (by decide),
   c4_release_order_and_handles.2 c4env 0 ∅ [c4hdr] 0 20480 2 (by decide)⟩

/-- C1 (divergence witness): the copy step of allocate_segments for a
loadable segment with file_size 2 and memory_size 8 writes the destination
byte at position 5 — a position at or beyond file_size and below
memory_size — from the image (byte `p_offset + 5`), overwriting the
allocator-provided content: line 1006 copies `p_memsz` bytes from the image,
not `p_filesize`, so the bytes of the region beyond file_size up to
memory_size ARE written from the image, contrary to the claim. -/
def c1hdr : program_header := ⟨1, 8192, 8, 0, 2⟩

def c1image : ℕ → ℕ := fun i => 100 + i

def c1ram : ℕ → ℕ := fun _ => 7

theorem c1_tail_written_from_image :
    c1hdr.p_filesize = 2 ∧ c1hdr.p_memsz = 8 ∧
    c1hdr.p_filesize ≤ 5 ∧ 5 < c1hdr.p_memsz ∧
    segmentCopy c1image c1ram c1hdr 4096 (memory_start 4096 c1hdr + 5) =
      c1image (c1hdr.p_offset + 5) ∧
    segmentCopy c1image c1ram c1hdr 4096 (memory_start 4096 c1hdr + 5) ≠
      c1ram (memory_start 4096 c1hdr + 5) := by
  decide

/-- C9: empty file content, or content failing the structural ELF check,
makes the exec path return early with an error: the page tables are
unchanged, no handle slot is written, and no allocation is attempted
(allocate_segments is never reached). -/
theorem c9_invalid_rejected (isValidElf : List ℕ → Bool)
    (parsePhdrs : List ℕ → List program_header) (env : LoadEnv)
    (mapped : Finset ℕ) (content : List ℕ)
    (h : content = [] ∨ isValidElf content = false) :
    exec_load isValidElf parsePhdrs env mapped content = (mapped, [], true) := by
  rcases h with h | h
  · subst h
    rfl
  · cases he : content.isEmpty <;>
      simp [exec_load, read_elf_file, he, h]

def c9validElf : List ℕ → Bool := fun _ => false

def c9parse : List ℕ → List program_header := fun _ => []

def c9env : LoadEnv := ⟨fun _ => none, fun _ => false⟩

theorem c9_invalid_rejected_witness :
    c9validElf [1] = false ∧
    exec_load c9validElf c9parse c9env ∅ [1] = (∅, [], true) :=
  ⟨by decide, c9_invalid_rejected c9validElf c9parse c9env ∅ [1] (Or.inr (by decide))⟩

/-- C10: if materialization aborts, the handle-array slots after the written
prefix keep their initial contents (the loop never writes them); cleanup
still inspects every slot of the full array and frees exactly its non-empty
values; hence cleanup frees exactly the handles materialization recorded
precisely when every slot it never wrote holds the empty value. -/
theorem c10_unwritten_slots_and_cleanup (env : LoadEnv) (m : Finset ℕ)
    (phdrs : List program_header) (init : List (Option ℕ))
    (hlen : init.length = phdrs.length)
    (htail : (((init.drop (allocSegs env 0 m phdrs).slots.length)).all
      fun a => a.isNone) = true) :
    (finalArray init (allocSegs env 0 m phdrs)).drop
        (allocSegs env 0 m phdrs).slots.length =
      init.drop (allocSegs env 0 m phdrs).slots.length ∧
    freesOf (releaseSegments phdrs (finalArray init (allocSegs env 0 m phdrs))) =
      (finalArray init (allocSegs env 0 m phdrs)).reduceOption ∧
    freesOf (releaseSegments phdrs (finalArray init (allocSegs env 0 m phdrs))) =
      (allocSegs env 0 m phdrs).slots.reduceOption := by
  have hsl : (allocSegs env 0 m phdrs).slots.length ≤ phdrs.length :=
    allocSegs_slots_length env phdrs 0 m
  have hflen : (finalArray init (allocSegs env 0 m phdrs)).length = phdrs.length := by
    rw [finalArray, List.length_append, List.length_drop]
    omega
  have hfr : freesOf (releaseSegments phdrs (finalArray init (allocSegs env 0 m phdrs))) =
      (finalArray init (allocSegs env 0 m phdrs)).reduceOption :=
    freesOf_release phdrs _ hflen
  refine ⟨?_, hfr, ?_⟩
  · rw [finalArray]
    exact List.drop_left _ _
  · rw [hfr, finalArray, List.reduceOption_append,
      reduceOption_eq_nil_of_all_none _ htail, List.append_nil]

/-- C10 witness: a run that aborts on a mapping failure at the second
segment; both slots were written with handles, the initial array tail is
empty, and cleanup frees exactly the recorded handles. -/
def c10ph1 : program_header := ⟨1, 40960, 1, 0, 1⟩

def c10ph2 : program_header := ⟨1, 61440, 1, 0, 1⟩

def c10env : LoadEnv := ⟨fun p => if p = 0 then some 4096 else some 8192,
  fun p => decide (p = 0)⟩

theorem c10_unwritten_slots_and_cleanup_witness :
    ([(none : Option ℕ), none].length = [c10ph1, c10ph2].length) ∧
    ((([(none : Option ℕ), none].drop
        (allocSegs c10env 0 ∅ [c10ph1, c10ph2]).slots.length)).all
      fun a => a.isNone) = true ∧
    freesOf (releaseSegments [c10ph1, c10ph2]
        (finalArray [none, none] (allocSegs c10env 0 ∅ [c10ph1, c10ph2]))) =
      (allocSegs c10env 0 ∅ [c10ph1, c10ph2]).slots.reduceOption :=
  ⟨by decide, by decide,
   (c10_unwritten_slots_and_cleanup c10env ∅ [c10ph1, c10ph2] [none, none]
      (by decide) (by decide)).2.2⟩
